import Mathlib

set_option linter.unusedVariables false

/-!
Verification of the mask-composition semantics of the pruning tutorial
(`src/intermediate_source/pruning_tutorial.py`).

The tutorial demonstrates `torch.nn.utils.prune`; the only pruning logic
written in the repository itself is `FooBarPruningMethod.compute_mask`
(lines 362-365), which is embedded below as `fooBarComputeMask`.  The
surrounding Mask Composition Engine (unstructured / structured / global
pruning, mask accumulation, finalize) lives in the external library and is
modelled from the specification.

Tensors are embedded flattened as lists of integers, masks as lists of
booleans (`true` = keep / 1, `false` = pruned / 0).
-/

namespace PruneSpec

abbrev Mask := List Bool
abbrev Tensor := List Int

/-- Errors surfaced by amount validation (spec §7). -/
inductive PruneError
  | invalidAmount
  deriving DecidableEq, Repr

/-- A pruning amount: either a fraction of the still-active entries, or an
absolute count of entries to newly prune (spec §4.1). -/
inductive Amount
  | frac (q : ℚ)
  | int (n : ℤ)
  deriving DecidableEq

/-- Number of still-active (unpruned, `true`) entries of a mask. -/
def numActive (m : Mask) : Nat := m.countP id

/-- Modelled from the spec: indices of a list satisfying a predicate, in
increasing order.  Used to enumerate the still-active entries (resp. the
still-active slices) a pruning step may act on. -/
def idxWhere (p : α → Bool) : List α → List Nat
  | [] => []
  | a :: l => (if p a then [0] else []) ++ (idxWhere p l).map (· + 1)

/-- Indices of the still-active entries of a mask, in increasing order. -/
def activeIndices (m : Mask) : List Nat := idxWhere id m

/-- Modelled from the spec: amount validation (spec §4.1 and §7).
A fractional amount outside `[0,1]` and a negative integer amount raise
`InvalidAmount`; an integer amount exceeding the active count `a` is
clipped to `a` with a warning (the returned boolean).  Otherwise the
number of entries to newly prune is `round (q * a)` in the fractional
case and the amount itself in the integer case. -/
def computeK : Amount → Nat → Except PruneError (Nat × Bool)
  | .frac q, a =>
      if q < 0 ∨ 1 < q then .error .invalidAmount
      else .ok ((round (q * (a : ℚ))).toNat, false)
  | .int n, a =>
      if n < 0 then .error .invalidAmount
      else if (a : ℤ) < n then .ok (a, true) else .ok (n.toNat, false)

/-- Modelled from the spec: deterministic selection of the `k`
lowest-scoring candidates.  Repeatedly takes the candidate with the least
score; `List.argmin` keeps the first minimiser, so ties are broken by the
earlier (lower-index) candidate. -/
def selectMins (f : Nat → Nat) : Nat → List Nat → List Nat
  | 0, _ => []
  | k + 1, cands =>
      match cands.argmin f with
      | none => []
      | some i => i :: selectMins f k (cands.erase i)

/-- Score of the entry at flattened index `i` of the snapshot. -/
def entryScore (score : Int → Nat) (snap : Tensor) (i : Nat) : Nat :=
  score (snap.getD i 0)

/-- Set one mask entry to 0 (pruned). -/
def zeroAt (m : Mask) (i : Nat) : Mask := m.set i false

/-- Zero every listed index of a mask. -/
def zeroEntries (sel : List Nat) (m : Mask) : Mask := sel.foldl zeroAt m

/-- Modelled from the spec: unstructured pruning core — newly zero the `k`
lowest-scoring still-active entries, previously-zeroed positions staying
zero (spec §4.1, `apply_unstructured`). -/
def pruneUnstructured (score : Int → Nat) (snap : Tensor) (k : Nat) (m : Mask) : Mask :=
  zeroEntries (selectMins (entryScore score snap) k (activeIndices m)) m

/-- Modelled from the spec: `apply_unstructured(snapshot, current_mask,
amount, score_fn)` — validates the amount against the number of
still-active entries, then prunes. -/
def applyUnstructured (score : Int → Nat) (snap : Tensor) (m : Mask) (amt : Amount) :
    Except PruneError Mask :=
  match computeK amt (numActive m) with
  | .error e => .error e
  | .ok (k, _) => .ok (pruneUnstructured score snap k m)

/-- A structured mask: one boolean row per slice along the pruning axis. -/
abbrev SMask := List (List Bool)

/-- A slice is active iff any of its entries is still unpruned (spec §4.1,
`apply_structured`). -/
def sliceActive (r : List Bool) : Bool := r.any id

/-- Number of still-active slices. -/
def numActiveSlices (m : SMask) : Nat := m.countP sliceActive

/-- Indices of the still-active slices, in increasing order. -/
def activeSliceIndices (m : SMask) : List Nat := idxWhere sliceActive m

/-- Modelled from the spec: score of a slice — its `Lp` norm over the
current masked values (zeroed entries contribute 0).  The norm's outer
`p`-th root is omitted: it is strictly monotone, so the induced ranking
of slices, which is all the selection uses, is unchanged. -/
def sliceScore (p : Nat) (vals : List Int) (r : List Bool) : Nat :=
  (List.zipWith (fun v b => if b then v.natAbs ^ p else 0) vals r).sum

/-- Zero every entry of slice `i`. -/
def zeroSlice (m : SMask) (i : Nat) : SMask :=
  m.set i (List.replicate (m.getD i []).length false)

/-- Zero every listed slice. -/
def zeroSlices (sel : List Nat) (m : SMask) : SMask := sel.foldl zeroSlice m

/-- Modelled from the spec: structured pruning core — newly zero every
entry of the `k` lowest-scoring still-active slices, ties broken by lowest
slice index; fully-zeroed slices are not candidates (spec §4.1,
`apply_structured`). -/
def pruneStructured (p : Nat) (snap : List Tensor) (k : Nat) (m : SMask) : SMask :=
  zeroSlices
    (selectMins (fun i => sliceScore p (snap.getD i []) (m.getD i [])) k
      (activeSliceIndices m)) m

/-- Modelled from the spec: `apply_structured(snapshot, current_mask,
amount, axis, norm_order)` — the amount is counted in slices, not
elements.  The tensor is embedded as its list of slices along the pruning
axis. -/
def applyStructured (p : Nat) (snap : List Tensor) (m : SMask) (amt : Amount) :
    Except PruneError SMask :=
  match computeK amt (numActiveSlices m) with
  | .error e => .error e
  | .ok (k, _) => .ok (pruneStructured p snap k m)

/-- Split a flat mask back into per-tensor masks of the given lengths. -/
def splitMasks : List Nat → Mask → List Mask
  | [], _ => []
  | n :: ns, m => m.take n :: splitMasks ns (m.drop n)

/-- Modelled from the spec: `apply_global(parameter_list, amount)` —
concatenates all tensors into one virtual pool, validates the amount
against the pool's total active count, prunes the `k` globally
lowest-scoring active entries, and maps the result back to one mask per
input tensor (spec §4.1, `apply_global`). -/
def applyGlobal (score : Int → Nat) (ts : List (Tensor × Mask)) (amt : Amount) :
    Except PruneError (List Mask) :=
  match computeK amt (numActive (ts.map Prod.snd).flatten) with
  | .error e => .error e
  | .ok (k, _) =>
      .ok (splitMasks (ts.map fun t => t.2.length)
        (pruneUnstructured score (ts.map Prod.fst).flatten k (ts.map Prod.snd).flatten))

/-- Total number of still-active entries across a list of parameters. -/
def totalActive (ts : List (Tensor × Mask)) : Nat :=
  numActive (ts.map Prod.snd).flatten

/-- Elementwise product of a snapshot with a mask: the pruned view of a
parameter (`module.weight` after pruning, tutorial lines 114-120). -/
def hadamard (t : Tensor) (m : Mask) : Tensor :=
  List.zipWith (fun v b => if b then v else 0) t m

/-- State kept for a pruned parameter: the original-value snapshot
(`weight_orig`), the cumulative mask (`weight_mask`) and the derived
pruned view (`weight`). -/
structure PState where
  snapshot : Tensor
  cumMask : Mask
  prunedView : Tensor
  deriving DecidableEq

/-- First pruning call on a parameter: snapshot its values and start from
the all-ones mask. -/
def initState (w : Tensor) : PState :=
  ⟨w, List.replicate w.length true, hadamard w (List.replicate w.length true)⟩

/-- Modelled from the spec: one unstructured pruning call on a parameter
that newly prunes the `k` lowest-scoring active entries, then recomputes
the pruned view from snapshot and cumulative mask (the hook recomputation
of tutorial lines 114-129). -/
def stepState (score : Int → Nat) (k : Nat) (s : PState) : PState :=
  ⟨s.snapshot, pruneUnstructured score s.snapshot k s.cumMask,
    hadamard s.snapshot (pruneUnstructured score s.snapshot k s.cumMask)⟩

/-- Run a sequence of pruning calls. -/
def runSteps (score : Int → Nat) (ks : List Nat) (s : PState) : PState :=
  ks.foldl (fun s k => stepState score k s) s

/-- Modelled from the spec: one checked pruning call — an invalid amount
is surfaced as an error and the parameter state is left unchanged. -/
def stepChecked (score : Int → Nat) (amt : Amount) (s : PState) : PState :=
  match applyUnstructured score s.snapshot s.cumMask amt with
  | .error _ => s
  | .ok m => ⟨s.snapshot, m, hadamard s.snapshot m⟩

/-- The mask history of a sequence of pruning calls: the cumulative mask
recorded after each call (the container's pruning history, tutorial lines
181-185). -/
def maskHistory (score : Int → Nat) (snap : Tensor) : List Nat → Mask → List Mask
  | [], _ => []
  | k :: ks, m =>
      pruneUnstructured score snap k m ::
        maskHistory score snap ks (pruneUnstructured score snap k m)

/-- Elementwise logical AND of two masks. -/
def andMask (m1 m2 : Mask) : Mask := List.zipWith and m1 m2

/-- Modelled from the spec: `compose_sequential(mask_history)` — fold
elementwise AND over an ordered mask history (spec §4.1). -/
def composeSequential (init : Mask) (history : List Mask) : Mask :=
  history.foldl andMask init

/-- A parameter's lifecycle state: still re-parametrized by (snapshot,
mask), or ordinary (pruning made permanent). -/
inductive Param
  | prunedP (snapshot : Tensor) (mask : Mask)
  | ordinary (value : Tensor)
  deriving DecidableEq

/-- Modelled from the spec: `finalize(parameter)` (`prune.remove`,
tutorial line 217) — replaces the live value with `snapshot ⊙ mask` and
discards the re-parametrization; finalizing an already-ordinary parameter
is a no-op, not an error. -/
def finalize : Param → Param
  | .prunedP s m => .ordinary (hadamard s m)
  | .ordinary v => .ordinary v

/-- `FooBarPruningMethod.compute_mask` from the tutorial (lines 362-365):
clone the default mask and zero every other entry of the flattened
tensor — `mask.view(-1)[::2] = 0`.  The tensor argument `t` is never
read. -/
def fooBarComputeMask (t : Tensor) (default_mask : Mask) : Mask :=
  default_mask.mapIdx (fun i b => if i % 2 = 0 then false else b)

/-- Values of the still-active entries of a tensor, in order. -/
def gatherActive (t : Tensor) (m : Mask) : Tensor :=
  (List.zip t m).filterMap (fun vb => if vb.2 then some vb.1 else none)

/-- Scatter a mask computed on the active portion back over the full
mask: inactive positions stay 0, the `r`-th active position receives the
`r`-th entry of the portion's mask. -/
def scatterActive : Mask → Mask → Mask
  | [], _ => []
  | false :: m, q => false :: scatterActive m q
  | true :: m, [] => true :: scatterActive m []
  | true :: m, b :: q => b :: scatterActive m q

/-- Modelled from the spec: the container's combination of a new
unstructured technique with the current mask — the technique is applied
to the still-unpruned portion of the parameter only, and its partial mask
is scattered back over the active positions (tutorial lines 341-347). -/
def containerCombine (method : Tensor → Mask → Mask) (t : Tensor) (m : Mask) : Mask :=
  scatterActive m (method (gatherActive t m) (List.replicate (numActive m) true))

/-! ### Basic lemmas about zeroing mask entries -/

theorem zeroAt_length (m : Mask) (i : Nat) : (zeroAt m i).length = m.length := by
  simp [zeroAt]

theorem getD_zeroAt_self (m : Mask) (j : Nat) : (zeroAt m j).getD j false = false := by
  induction m generalizing j with
  | nil => simp [zeroAt]
  | cons b l ih =>
      cases j with
      | zero => simp [zeroAt]
      | succ j => simpa [zeroAt] using ih j

theorem getD_zeroAt_ne (m : Mask) {i j : Nat} (h : i ≠ j) :
    (zeroAt m j).getD i false = m.getD i false := by
  induction m generalizing i j with
  | nil => simp [zeroAt]
  | cons b l ih =>
      cases j with
      | zero =>
          cases i with
          | zero => exact absurd rfl h
          | succ i => simp [zeroAt]
      | succ j =>
          cases i with
          | zero => simp [zeroAt]
          | succ i => simpa [zeroAt] using ih (fun hc => h (by omega))

theorem zeroEntries_length (sel : List Nat) (m : Mask) :
    (zeroEntries sel m).length = m.length := by
  induction sel generalizing m with
  | nil => rfl
  | cons j rest ih => simpa [zeroEntries, List.foldl_cons, zeroAt_length] using
      (zeroAt_length m j ▸ ih (zeroAt m j))

theorem getD_zeroEntries_not_mem {sel : List Nat} {i : Nat} (h : i ∉ sel) (m : Mask) :
    (zeroEntries sel m).getD i false = m.getD i false := by
  induction sel generalizing m with
  | nil => rfl
  | cons j rest ih =>
      have hij : i ≠ j := fun hc => h (hc ▸ List.mem_cons_self j rest)
      have hrest : i ∉ rest := fun hc => h (List.mem_cons_of_mem j hc)
      calc (zeroEntries (j :: rest) m).getD i false
          = (zeroEntries rest (zeroAt m j)).getD i false := rfl
        _ = (zeroAt m j).getD i false := ih hrest (zeroAt m j)
        _ = m.getD i false := getD_zeroAt_ne m hij

theorem getD_zeroEntries_mem {sel : List Nat} {i : Nat} (h : i ∈ sel) (m : Mask) :
    (zeroEntries sel m).getD i false = false := by
  induction sel generalizing m with
  | nil => cases h
  | cons j rest ih =>
      by_cases hr : i ∈ rest
      · exact ih hr (zeroAt m j)
      · have hij : i = j := by
          rcases List.mem_cons.mp h with h0 | h0
          · exact h0
          · exact absurd h0 hr
        calc (zeroEntries (j :: rest) m).getD i false
            = (zeroAt m j).getD i false := getD_zeroEntries_not_mem hr (zeroAt m j)
          _ = false := hij ▸ getD_zeroAt_self m j

/-! ### Lemmas about `idxWhere` -/

theorem mem_idxWhere {p : α → Bool} {d : α} (hd : p d = false) :
    ∀ {l : List α} {i : Nat}, i ∈ idxWhere p l ↔ p (l.getD i d) = true := by
  intro l
  induction l with
  | nil => intro i; simp [idxWhere, hd]
  | cons a l ih =>
      intro i
      cases i with
      | zero =>
          simp only [idxWhere, List.mem_append, List.mem_map, List.getD_cons_zero]
          constructor
          · rintro (h0 | ⟨j, _, hj⟩)
            · by_cases hp : p a = true
              · exact hp
              · simp [hp] at h0
            · omega
          · intro hp; left; simp [hp]
      | succ i =>
          simp only [idxWhere, List.mem_append, List.mem_map, List.getD_cons_succ]
          constructor
          · rintro (h0 | ⟨j, hj, hji⟩)
            · by_cases hp : p a = true <;> simp [hp] at h0
            · have : j = i := by omega
              exact ih.mp (this ▸ hj)
          · intro hp; right; exact ⟨i, ih.mpr hp, rfl⟩

theorem length_idxWhere (p : α → Bool) : ∀ l : List α, (idxWhere p l).length = l.countP p := by
  intro l
  induction l with
  | nil => rfl
  | cons a l ih =>
      simp only [idxWhere, List.length_append, List.length_map, ih, List.countP_cons]
      by_cases hp : p a = true
      · simp [hp]; omega
      · simp [hp]

theorem nodup_idxWhere (p : α → Bool) : ∀ l : List α, (idxWhere p l).Nodup := by
  intro l
  induction l with
  | nil => simp [idxWhere]
  | cons a l ih =>
      have hmap : ((idxWhere p l).map (· + 1)).Nodup :=
        ih.map (fun x y h => by omega)
      by_cases hp : p a = true
      · simp only [idxWhere, hp, if_pos]
        refine List.Nodup.append (by simp) hmap ?_
        intro x hx hy
        rcases List.mem_map.mp hy with ⟨j, _, hj⟩
        simp at hx
        omega
      · simp only [idxWhere, hp]
        simpa using hmap

/-! ### Lemmas about `selectMins` -/

theorem selectMins_subset (f : Nat → Nat) :
    ∀ (k : Nat) (c : List Nat), ∀ i ∈ selectMins f k c, i ∈ c := by
  intro k
  induction k with
  | zero => intro c i hi; cases hi
  | succ k ih =>
      intro c i hi
      unfold selectMins at hi
      cases h : c.argmin f with
      | none => rw [h] at hi; cases hi
      | some i0 =>
          rw [h] at hi
          rcases List.mem_cons.mp hi with h0 | h0
          · exact h0 ▸ List.argmin_mem (Option.mem_def.mpr h)
          · exact List.erase_subset i0 c (ih (c.erase i0) i h0)

theorem selectMins_nodup (f : Nat → Nat) :
    ∀ (k : Nat) (c : List Nat), c.Nodup → (selectMins f k c).Nodup := by
  intro k
  induction k with
  | zero => intro c _; simp [selectMins]
  | succ k ih =>
      intro c hc
      unfold selectMins
      cases h : c.argmin f with
      | none => simp
      | some i0 =>
          refine List.Nodup.cons ?_ (ih (c.erase i0) (hc.erase i0))
          intro hmem
          have : i0 ∈ c.erase i0 := selectMins_subset f k (c.erase i0) i0 hmem
          exact absurd ((hc.mem_erase_iff).mp this).1 (by simp)

theorem length_selectMins (f : Nat → Nat) :
    ∀ (k : Nat) (c : List Nat), (selectMins f k c).length = min k c.length := by
  intro k
  induction k with
  | zero => intro c; simp [selectMins]
  | succ k ih =>
      intro c
      unfold selectMins
      cases h : c.argmin f with
      | none =>
          have : c = [] := List.argmin_eq_none.mp h
          simp [this]
      | some i0 =>
          have hmem : i0 ∈ c := List.argmin_mem (Option.mem_def.mpr h)
          have hlen : (c.erase i0).length = c.length - 1 := List.length_erase_of_mem hmem
          have hpos : 1 ≤ c.length := List.length_pos.mpr (List.ne_nil_of_mem hmem)
          simp only [List.length_cons, ih (c.erase i0), hlen]
          omega

theorem selectMins_le_of_not_mem (f : Nat → Nat) :
    ∀ (k : Nat) (c : List Nat) (i j : Nat), i ∈ selectMins f k c → j ∈ c →
      j ∉ selectMins f k c → f i ≤ f j := by
  intro k
  induction k with
  | zero => intro c i j hi _ _; cases hi
  | succ k ih =>
      intro c i j hi hj hjn
      unfold selectMins at hi hjn
      cases h : c.argmin f with
      | none => rw [h] at hi; cases hi
      | some i0 =>
          rw [h] at hi hjn
          have hji0 : j ≠ i0 := fun hc => hjn (hc ▸ List.mem_cons_self i0 _)
          have hj' : j ∈ c.erase i0 := (List.mem_erase_of_ne hji0).mpr hj
          rcases List.mem_cons.mp hi with h0 | h0
          · exact h0 ▸ List.le_of_mem_argmin hj (Option.mem_def.mpr h)
          · exact ih (c.erase i0) i j h0 hj'
              (fun hc => hjn (List.mem_cons_of_mem i0 hc))

/-! ### Counting pruned entries -/

theorem countP_zeroAt {m : Mask} {j : Nat} (h : m.getD j false = true) :
    numActive m = numActive (zeroAt m j) + 1 := by
  induction m generalizing j with
  | nil => simp at h
  | cons b l ih =>
      cases j with
      | zero =>
          simp only [List.getD_cons_zero] at h
          simp [numActive, zeroAt, List.countP_cons, h]
      | succ j =>
          simp only [List.getD_cons_succ] at h
          have := ih h
          simp only [numActive, zeroAt, List.set_cons_succ, List.countP_cons] at *
          omega

theorem numActive_zeroEntries :
    ∀ (sel : List Nat) (m : Mask), sel.Nodup → (∀ i ∈ sel, m.getD i false = true) →
      numActive m = numActive (zeroEntries sel m) + sel.length := by
  intro sel
  induction sel with
  | nil => intro m _ _; simp [zeroEntries]
  | cons j rest ih =>
      intro m hnd hact
      have h1 : numActive m = numActive (zeroAt m j) + 1 :=
        countP_zeroAt (hact j (List.mem_cons_self j rest))
      have hact' : ∀ i ∈ rest, (zeroAt m j).getD i false = true := by
        intro i hi
        have hij : i ≠ j := fun hc => (List.nodup_cons.mp hnd).1 (hc ▸ hi)
        rw [getD_zeroAt_ne m hij]
        exact hact i (List.mem_cons_of_mem j hi)
      have h2 := ih (zeroAt m j) (List.nodup_cons.mp hnd).2 hact'
      show numActive m = numActive (zeroEntries rest (zeroAt m j)) + (rest.length + 1)
      omega

/-! ### Core properties of unstructured pruning -/

theorem mem_activeIndices {m : Mask} {i : Nat} :
    i ∈ activeIndices m ↔ m.getD i false = true := by
  simpa using mem_idxWhere (p := id) (d := false) rfl (l := m) (i := i)

theorem length_activeIndices (m : Mask) : (activeIndices m).length = numActive m :=
  length_idxWhere id m

theorem pruneUnstructured_count (score : Int → Nat) (snap : Tensor) (k : Nat) (m : Mask) :
    numActive m = numActive (pruneUnstructured score snap k m) + min k (numActive m) := by
  have hnd := selectMins_nodup (entryScore score snap) k (activeIndices m)
    (nodup_idxWhere id m)
  have hact : ∀ i ∈ selectMins (entryScore score snap) k (activeIndices m),
      m.getD i false = true := by
    intro i hi
    exact mem_activeIndices.mp (selectMins_subset _ k _ i hi)
  have := numActive_zeroEntries _ m hnd hact
  rwa [length_selectMins, length_activeIndices] at this

theorem pruneUnstructured_mono {score : Int → Nat} {snap : Tensor} {k : Nat} {m : Mask}
    {i : Nat} (h : m.getD i false = false) :
    (pruneUnstructured score snap k m).getD i false = false := by
  by_cases hi : i ∈ selectMins (entryScore score snap) k (activeIndices m)
  · exact getD_zeroEntries_mem hi m
  · rw [pruneUnstructured, getD_zeroEntries_not_mem hi m]; exact h

theorem pruneUnstructured_le {score : Int → Nat} {snap : Tensor} {k : Nat} {m : Mask}
    {i : Nat} (h : (pruneUnstructured score snap k m).getD i false = true) :
    m.getD i false = true := by
  cases hm : m.getD i false with
  | true => rfl
  | false => rw [pruneUnstructured_mono hm] at h; cases h

theorem pruneUnstructured_min {score : Int → Nat} {snap : Tensor} {k : Nat} {m : Mask}
    {i j : Nat} (hi : m.getD i false = true)
    (hzi : (pruneUnstructured score snap k m).getD i false = false)
    (hj : (pruneUnstructured score snap k m).getD j false = true) :
    entryScore score snap i ≤ entryScore score snap j := by
  by_cases hisel : i ∈ selectMins (entryScore score snap) k (activeIndices m)
  · have hjact : j ∈ activeIndices m := mem_activeIndices.mpr (pruneUnstructured_le hj)
    have hjsel : j ∉ selectMins (entryScore score snap) k (activeIndices m) := by
      intro hc
      rw [pruneUnstructured] at hj
      rw [getD_zeroEntries_mem hc m] at hj
      cases hj
    exact selectMins_le_of_not_mem _ k _ i j hisel hjact hjsel
  · rw [pruneUnstructured, getD_zeroEntries_not_mem hisel m] at hzi
    rw [hi] at hzi
    cases hzi

/-! ### FooBar, mask composition and state helpers -/

theorem fooBar_getD (t : Tensor) (dm : Mask) (i : Nat) :
    (fooBarComputeMask t dm).getD i false = (dm.getD i false && decide (i % 2 = 1)) := by
  simp only [fooBarComputeMask, List.getD_eq_getElem?_getD, List.getElem?_mapIdx]
  cases h : dm[i]? with
  | none => simp
  | some b =>
      rcases Nat.mod_two_eq_zero_or_one i with h2 | h2 <;> simp [h2]

theorem pruneUnstructured_length (score : Int → Nat) (snap : Tensor) (k : Nat) (m : Mask) :
    (pruneUnstructured score snap k m).length = m.length :=
  zeroEntries_length _ m

theorem andMask_eq_of_le :
    ∀ (m1 m2 : Mask), m1.length = m2.length →
      (∀ i, m2.getD i false = true → m1.getD i false = true) → andMask m1 m2 = m2 := by
  intro m1
  induction m1 with
  | nil =>
      intro m2 hl _
      cases m2 with
      | nil => rfl
      | cons b2 l2 => simp at hl
  | cons b1 l1 ih =>
      intro m2 hl hle
      cases m2 with
      | nil => simp at hl
      | cons b2 l2 =>
          have hh : (b1 && b2) = b2 := by
            cases b2 with
            | false => simp
            | true =>
                have := hle 0 (by simp)
                simp only [List.getD_cons_zero] at this
                simp [this]
          have ht : andMask l1 l2 = l2 := by
            refine ih l2 (by simpa using hl) ?_
            intro i hi
            have := hle (i + 1) (by simpa using hi)
            simpa using this
          show (b1 && b2) :: List.zipWith and l1 l2 = b2 :: l2
          rw [hh]
          exact congrArg _ ht

theorem maskHistory_compose (score : Int → Nat) (snap : Tensor) :
    ∀ (ks : List Nat) (m0 : Mask),
      composeSequential m0 (maskHistory score snap ks m0) =
        (maskHistory score snap ks m0).getLastD m0 := by
  intro ks
  induction ks with
  | nil => intro m0; rfl
  | cons k ks ih =>
      intro m0
      show (maskHistory score snap ks (pruneUnstructured score snap k m0)).foldl andMask
          (andMask m0 (pruneUnstructured score snap k m0)) =
        (pruneUnstructured score snap k m0 ::
          maskHistory score snap ks (pruneUnstructured score snap k m0)).getLastD m0
      rw [andMask_eq_of_le m0 (pruneUnstructured score snap k m0)
        (pruneUnstructured_length score snap k m0).symm
        (fun i hi => pruneUnstructured_le hi)]
      rw [List.getLastD_cons]
      exact ih (pruneUnstructured score snap k m0)

theorem runSteps_view_inv (score : Int → Nat) :
    ∀ (ks : List Nat) (s : PState), s.prunedView = hadamard s.snapshot s.cumMask →
      (runSteps score ks s).prunedView =
        hadamard (runSteps score ks s).snapshot (runSteps score ks s).cumMask := by
  intro ks
  induction ks with
  | nil => intro s hs; exact hs
  | cons k ks ih => intro s _; exact ih (stepState score k s) rfl

/-! ### Lemmas about structured (per-slice) pruning -/

theorem getD_zeroSlice_ne (m : SMask) {i j : Nat} (h : i ≠ j) :
    (zeroSlice m j).getD i [] = m.getD i [] := by
  induction m generalizing i j with
  | nil => simp [zeroSlice]
  | cons r l ih =>
      cases j with
      | zero =>
          cases i with
          | zero => exact absurd rfl h
          | succ i => simp [zeroSlice]
      | succ j =>
          cases i with
          | zero => simp [zeroSlice]
          | succ i =>
              have := ih (i := i) (j := j) (fun hc => h (by omega))
              simpa [zeroSlice] using this

theorem getD_zeroSlice_self (m : SMask) (j : Nat) :
    (zeroSlice m j).getD j [] = List.replicate (m.getD j []).length false := by
  induction m generalizing j with
  | nil => simp [zeroSlice]
  | cons r l ih =>
      cases j with
      | zero => simp [zeroSlice]
      | succ j => simpa [zeroSlice] using ih j

theorem length_getD_zeroSlice (m : SMask) (j i : Nat) :
    ((zeroSlice m j).getD i []).length = (m.getD i []).length := by
  by_cases h : i = j
  · subst h; rw [getD_zeroSlice_self]; simp
  · rw [getD_zeroSlice_ne m h]

theorem getD_zeroSlices_not_mem {sel : List Nat} {i : Nat} (h : i ∉ sel) (m : SMask) :
    (zeroSlices sel m).getD i [] = m.getD i [] := by
  induction sel generalizing m with
  | nil => rfl
  | cons j rest ih =>
      have hij : i ≠ j := fun hc => h (hc ▸ List.mem_cons_self j rest)
      have hrest : i ∉ rest := fun hc => h (List.mem_cons_of_mem j hc)
      calc (zeroSlices (j :: rest) m).getD i []
          = (zeroSlice m j).getD i [] := ih hrest (zeroSlice m j)
        _ = m.getD i [] := getD_zeroSlice_ne m hij

theorem getD_zeroSlices_mem {sel : List Nat} {i : Nat} (h : i ∈ sel) (m : SMask) :
    (zeroSlices sel m).getD i [] = List.replicate (m.getD i []).length false := by
  induction sel generalizing m with
  | nil => cases h
  | cons j rest ih =>
      by_cases hr : i ∈ rest
      · rw [show zeroSlices (j :: rest) m = zeroSlices rest (zeroSlice m j) from rfl,
          ih hr (zeroSlice m j), length_getD_zeroSlice]
      · have hij : i = j := by
          rcases List.mem_cons.mp h with h0 | h0
          · exact h0
          · exact absurd h0 hr
        subst hij
        rw [show zeroSlices (i :: rest) m = zeroSlices rest (zeroSlice m i) from rfl,
          getD_zeroSlices_not_mem hr (zeroSlice m i), getD_zeroSlice_self]

theorem sliceActive_replicate_false (n : Nat) :
    sliceActive (List.replicate n false) = false := by
  simp [sliceActive]

theorem countP_zeroSlice {m : SMask} {j : Nat} (h : sliceActive (m.getD j []) = true) :
    numActiveSlices m = numActiveSlices (zeroSlice m j) + 1 := by
  induction m generalizing j with
  | nil => simp [sliceActive] at h
  | cons r l ih =>
      cases j with
      | zero =>
          simp only [List.getD_cons_zero] at h
          simp [numActiveSlices, zeroSlice, List.countP_cons, h,
            sliceActive_replicate_false]
      | succ j =>
          simp only [List.getD_cons_succ] at h
          have := ih h
          simp only [numActiveSlices, zeroSlice, List.getD_cons_succ,
            List.set_cons_succ, List.countP_cons] at *
          omega

theorem numActiveSlices_zeroSlices :
    ∀ (sel : List Nat) (m : SMask), sel.Nodup →
      (∀ i ∈ sel, sliceActive (m.getD i []) = true) →
      numActiveSlices m = numActiveSlices (zeroSlices sel m) + sel.length := by
  intro sel
  induction sel with
  | nil => intro m _ _; simp [zeroSlices]
  | cons j rest ih =>
      intro m hnd hact
      have h1 : numActiveSlices m = numActiveSlices (zeroSlice m j) + 1 :=
        countP_zeroSlice (hact j (List.mem_cons_self j rest))
      have hact' : ∀ i ∈ rest, sliceActive ((zeroSlice m j).getD i []) = true := by
        intro i hi
        have hij : i ≠ j := fun hc => (List.nodup_cons.mp hnd).1 (hc ▸ hi)
        rw [getD_zeroSlice_ne m hij]
        exact hact i (List.mem_cons_of_mem j hi)
      have h2 := ih (zeroSlice m j) (List.nodup_cons.mp hnd).2 hact'
      show numActiveSlices m = numActiveSlices (zeroSlices rest (zeroSlice m j)) +
        (rest.length + 1)
      omega

theorem mem_activeSliceIndices {m : SMask} {i : Nat} :
    i ∈ activeSliceIndices m ↔ sliceActive (m.getD i []) = true :=
  mem_idxWhere (p := sliceActive) (d := []) rfl

theorem length_activeSliceIndices (m : SMask) :
    (activeSliceIndices m).length = numActiveSlices m :=
  length_idxWhere sliceActive m

theorem pruneStructured_count (p : Nat) (snap : List Tensor) (k : Nat) (m : SMask) :
    numActiveSlices m =
      numActiveSlices (pruneStructured p snap k m) + min k (numActiveSlices m) := by
  have hnd := selectMins_nodup (fun i => sliceScore p (snap.getD i []) (m.getD i [])) k
    (activeSliceIndices m) (nodup_idxWhere sliceActive m)
  have hact : ∀ i ∈ selectMins (fun i => sliceScore p (snap.getD i []) (m.getD i [])) k
      (activeSliceIndices m), sliceActive (m.getD i []) = true := by
    intro i hi
    exact mem_activeSliceIndices.mp (selectMins_subset _ k _ i hi)
  have := numActiveSlices_zeroSlices _ m hnd hact
  rwa [length_selectMins, length_activeSliceIndices] at this

theorem pruneStructured_inactive (p : Nat) (snap : List Tensor) (k : Nat) (m : SMask)
    {i : Nat} (h : sliceActive (m.getD i []) = false) :
    (pruneStructured p snap k m).getD i [] = m.getD i [] := by
  have hi : i ∉ selectMins (fun i => sliceScore p (snap.getD i []) (m.getD i [])) k
      (activeSliceIndices m) := by
    intro hc
    have := mem_activeSliceIndices.mp (selectMins_subset _ k _ i hc)
    rw [h] at this
    cases this
  exact getD_zeroSlices_not_mem hi m

theorem pruneStructured_all_or_nothing (p : Nat) (snap : List Tensor) (k : Nat)
    (m : SMask) (i : Nat) :
    (pruneStructured p snap k m).getD i [] = m.getD i [] ∨
      (pruneStructured p snap k m).getD i [] =
        List.replicate (m.getD i []).length false := by
  by_cases hi : i ∈ selectMins (fun i => sliceScore p (snap.getD i []) (m.getD i [])) k
    (activeSliceIndices m)
  · exact Or.inr (getD_zeroSlices_mem hi m)
  · exact Or.inl (getD_zeroSlices_not_mem hi m)

theorem pruneStructured_min {p : Nat} {snap : List Tensor} {k : Nat} {m : SMask}
    {i j : Nat} (hia : sliceActive (m.getD i []) = true)
    (hzi : sliceActive ((pruneStructured p snap k m).getD i []) = false)
    (hj : sliceActive ((pruneStructured p snap k m).getD j []) = true) :
    sliceScore p (snap.getD i []) (m.getD i []) ≤
      sliceScore p (snap.getD j []) (m.getD j []) := by
  by_cases hisel : i ∈ selectMins (fun i => sliceScore p (snap.getD i []) (m.getD i [])) k
    (activeSliceIndices m)
  · have hjsel : j ∉ selectMins (fun i => sliceScore p (snap.getD i []) (m.getD i [])) k
        (activeSliceIndices m) := by
      intro hc
      rw [show pruneStructured p snap k m = zeroSlices _ m from rfl,
        getD_zeroSlices_mem hc m, sliceActive_replicate_false] at hj
      cases hj
    have hjact : j ∈ activeSliceIndices m := by
      rw [mem_activeSliceIndices]
      rwa [show pruneStructured p snap k m = zeroSlices _ m from rfl,
        getD_zeroSlices_not_mem hjsel m] at hj
    exact selectMins_le_of_not_mem _ k _ i j hisel hjact hjsel
  · rw [show pruneStructured p snap k m = zeroSlices _ m from rfl,
      getD_zeroSlices_not_mem hisel m, hia] at hzi
    cases hzi

theorem applyUnstructured_ok {score : Int → Nat} {snap : Tensor} {m m2 : Mask}
    {amt : Amount} (h : applyUnstructured score snap m amt = .ok m2) :
    ∃ k, m2 = pruneUnstructured score snap k m := by
  unfold applyUnstructured at h
  cases hck : computeK amt (numActive m) with
  | error e => rw [hck] at h; cases h
  | ok p =>
      obtain ⟨k, w⟩ := p
      rw [hck] at h
      simp only [Except.ok.injEq] at h
      exact ⟨k, h.symm⟩

/-! ### Lemmas about global pruning and the container -/

theorem round_frac_le {q : ℚ} (hq0 : 0 ≤ q) (hq1 : q ≤ 1) (a : Nat) :
    (round (q * (a : ℚ))).toNat ≤ a := by
  have h1 : q * (a : ℚ) ≤ (a : ℚ) := by
    calc q * (a : ℚ) ≤ 1 * (a : ℚ) :=
          mul_le_mul_of_nonneg_right hq1 (by positivity)
      _ = (a : ℚ) := one_mul _
  have h2 : round (q * (a : ℚ)) ≤ round ((a : ℚ) : ℚ) := by
    rw [round_eq, round_eq]
    exact Int.floor_mono (by linarith)
  rw [round_natCast] at h2
  exact Int.toNat_le.mpr h2

theorem numActive_splitMasks :
    ∀ (ns : List Nat) (m : Mask), ns.sum = m.length →
      ((splitMasks ns m).map numActive).sum = numActive m := by
  intro ns
  induction ns with
  | nil =>
      intro m h
      have hm : m = [] := List.eq_nil_of_length_eq_zero (by simpa using h.symm)
      simp [splitMasks, hm, numActive]
  | cons n ns ih =>
      intro m h
      have hn : n ≤ m.length := by simp [List.sum_cons] at h; omega
      have hlen : ns.sum = (m.drop n).length := by
        rw [List.length_drop]
        simp [List.sum_cons] at h
        omega
      have hrest := ih (m.drop n) hlen
      show numActive (m.take n) + ((splitMasks ns (m.drop n)).map numActive).sum =
        numActive m
      rw [hrest]
      have hsplit : numActive (m.take n) + numActive (m.drop n) = numActive m := by
        simp only [numActive]
        rw [← List.countP_append, List.take_append_drop]
      omega

theorem numActive_flatten (l : List Mask) :
    numActive l.flatten = (l.map numActive).sum := by
  simp only [numActive, List.countP_flatten]
  rfl

theorem lengths_sum (ts : List (Tensor × Mask)) :
    (ts.map fun t => t.2.length).sum = (ts.map Prod.snd).flatten.length := by
  rw [List.length_flatten, List.map_map]
  rfl

theorem applyGlobal_ok {score : Int → Nat} {ts : List (Tensor × Mask)} {q : ℚ}
    {ms : List Mask} (hq0 : 0 ≤ q) (hq1 : q ≤ 1)
    (h : applyGlobal score ts (.frac q) = .ok ms) :
    ms = splitMasks (ts.map fun t => t.2.length)
      (pruneUnstructured score (ts.map Prod.fst).flatten
        ((round (q * (totalActive ts : ℚ))).toNat) (ts.map Prod.snd).flatten) := by
  have hval : ¬(q < 0 ∨ 1 < q) := by
    rintro (hc | hc)
    · exact absurd hq0 (not_le.mpr hc)
    · exact absurd hq1 (not_le.mpr hc)
  have hck : computeK (.frac q) (numActive (ts.map Prod.snd).flatten) =
      .ok ((round (q * (totalActive ts : ℚ))).toNat, false) := by
    simp [computeK, hval, totalActive]
  unfold applyGlobal at h
  rw [hck] at h
  simp only [Except.ok.injEq] at h
  exact h.symm

theorem applyGlobal_count {score : Int → Nat} {ts : List (Tensor × Mask)} {q : ℚ}
    {ms : List Mask} (hq0 : 0 ≤ q) (hq1 : q ≤ 1)
    (h : applyGlobal score ts (.frac q) = .ok ms) :
    totalActive ts = (ms.map numActive).sum + (round (q * (totalActive ts : ℚ))).toNat := by
  rw [applyGlobal_ok hq0 hq1 h]
  simp only [totalActive]
  have hlen : (ts.map fun t => t.2.length).sum =
      (pruneUnstructured score (ts.map Prod.fst).flatten
        ((round (q * (numActive (ts.map Prod.snd).flatten : ℚ))).toNat)
        (ts.map Prod.snd).flatten).length := by
    rw [pruneUnstructured_length]
    exact lengths_sum ts
  rw [numActive_splitMasks _ _ hlen]
  have hcount := pruneUnstructured_count score (ts.map Prod.fst).flatten
    ((round (q * (numActive (ts.map Prod.snd).flatten : ℚ))).toNat)
    (ts.map Prod.snd).flatten
  have hk : (round (q * (numActive (ts.map Prod.snd).flatten : ℚ))).toNat ≤
      numActive (ts.map Prod.snd).flatten :=
    round_frac_le hq0 hq1 _
  omega

theorem getD_scatterActive_inactive :
    ∀ (m pm : Mask) {i : Nat}, m.getD i false = false →
      (scatterActive m pm).getD i false = false := by
  intro m
  induction m with
  | nil => intro pm i _; simp [scatterActive]
  | cons b l ih =>
      intro pm i h
      cases b with
      | false =>
          cases i with
          | zero => simp [scatterActive]
          | succ i => simpa [scatterActive] using ih pm (by simpa using h)
      | true =>
          cases pm with
          | nil =>
              cases i with
              | zero => simp at h
              | succ i => simpa [scatterActive] using ih [] (by simpa using h)
          | cons c pl =>
              cases i with
              | zero => simp at h
              | succ i => simpa [scatterActive] using ih pl (by simpa using h)

/-! ### Claim theorems -/

/-- C1.  Monotonic zeroing: a mask `m2` produced by a pruning call on a
parameter whose mask was `m1` has a 0 at every position where `m1` had a
0 — no pruning step sets a previously zeroed entry back to 1.  This holds
both for the engine's `apply_unstructured` and for the tutorial's
`FooBarPruningMethod.compute_mask`. -/
theorem claim_C1 (score : Int → Nat) (snap : Tensor) (amt : Amount) (m1 m2 : Mask)
    (h : applyUnstructured score snap m1 amt = .ok m2) (t : Tensor) (i : Nat)
    (h0 : m1.getD i false = false) :
    m2.getD i false = false ∧ (fooBarComputeMask t m1).getD i false = false := by
  constructor
  · obtain ⟨k, hk⟩ := applyUnstructured_ok h
    exact hk ▸ pruneUnstructured_mono h0
  · rw [fooBar_getD, h0]
    rfl

/-- C1 witness: a concrete run on a 6-entry parameter whose position 1
was already pruned. -/
theorem claim_C1_witness :
    applyUnstructured Int.natAbs [5, 1, 4, 2, 6, 3]
        [true, false, true, true, true, true] (.int 2) =
      .ok [true, false, true, false, true, false] ∧
    ([true, false, true, true, true, true] : Mask).getD 1 false = false ∧
    (([true, false, true, false, true, false] : Mask).getD 1 false = false ∧
      (fooBarComputeMask [7, 7, 7, 7, 7, 7]
        [true, false, true, true, true, true]).getD 1 false = false) :=
  ⟨by rfl, by decide,
    claim_C1 Int.natAbs [5, 1, 4, 2, 6, 3] (.int 2)
      [true, false, true, true, true, true] [true, false, true, false, true, false]
      (by rfl) [7, 7, 7, 7, 7, 7] 1 (by decide)⟩

/-- C2.  Round-trip law: folding elementwise AND over the ordered history
of masks produced by repeated pruning calls on one parameter yields
exactly the incrementally maintained cumulative mask (the last mask of
the history). -/
theorem claim_C2 (score : Int → Nat) (snap : Tensor) (ks : List Nat) (m0 : Mask) :
    composeSequential m0 (maskHistory score snap ks m0) =
      (maskHistory score snap ks m0).getLastD m0 :=
  maskHistory_compose score snap ks m0

/-- C3.  Derived-view invariant: after any sequence of pruning steps the
parameter's pruned view equals the elementwise product of the snapshot
with the cumulative mask. -/
theorem claim_C3 (score : Int → Nat) (ks : List Nat) (w : Tensor) :
    (runSteps score ks (initState w)).prunedView =
      hadamard (runSteps score ks (initState w)).snapshot
        (runSteps score ks (initState w)).cumMask :=
  runSteps_view_inv score ks (initState w) rfl

/-- C8.  `finalize` is idempotent: finalizing twice yields the same
parameter state as finalizing once, and the second call is a no-op (it is
a total function, raising no error on an already-ordinary parameter). -/
theorem claim_C8 (p : Param) : finalize (finalize p) = finalize p := by
  cases p with
  | prunedP s m => rfl
  | ordinary v => rfl

/-- C10.  `FooBarPruningMethod.compute_mask` ignores the tensor values:
its result on any two tensors and the same default mask is identical, and
the result is a copy of the default mask (same length, the input itself
untouched — the embedding is pure and the source writes only to a clone)
whose every even flattened index is 0. -/
theorem claim_C10 (t1 t2 : Tensor) (dm : Mask) (i : Nat) :
    fooBarComputeMask t1 dm = fooBarComputeMask t2 dm ∧
    (fooBarComputeMask t1 dm).length = dm.length ∧
    (fooBarComputeMask t1 dm).getD i false = (dm.getD i false && decide (i % 2 = 1)) :=
  ⟨rfl, List.length_mapIdx, fooBar_getD t1 dm i⟩

/-- C4 counterexample: on snapshot `[5,1,4,2,6,3]` with all-ones mask,
`amount = 3` and absolute-value scoring, the three lowest values 1, 2, 3
sit at positions 1, 3, 5, so the new mask is `[1,0,1,0,1,0]` — not the
claimed `[1,0,0,0,1,1]` (which would zero position 2, holding the value
4, and keep position 5). -/
theorem claim_C4_counterexample :
    applyUnstructured Int.natAbs [5, 1, 4, 2, 6, 3]
        [true, true, true, true, true, true] (.int 3) =
      .ok [true, false, true, false, true, false] ∧
    ([true, false, true, false, true, false] : Mask) ≠
      [true, false, false, false, true, true] := by
  exact ⟨by rfl, by decide⟩

/-- C4 (amended).  `apply_unstructured` newly zeroes exactly
`min k num_active` entries with `k = round(amount * num_active)` for a
fractional amount in `[0,1]` and `k = amount` clipped to `num_active` for
an integer amount; every newly zeroed entry scores no higher than every
surviving active entry; and on snapshot `[5,1,4,2,6,3]` with all-ones
mask, `amount = 3`, absolute-value score, the new mask is `[1,0,1,0,1,0]`,
zeroing the values 1, 2, 3 at positions 1, 3, 5. -/
theorem claim_C4 (score : Int → Nat) (snap : Tensor) (m : Mask) (k : Nat)
    (q : ℚ) (hq0 : 0 ≤ q) (hq1 : q ≤ 1) (n : ℤ) (hn : 0 ≤ n) (a : Nat) (i j : Nat)
    (hi : m.getD i false = true)
    (hzi : (pruneUnstructured score snap k m).getD i false = false)
    (hj : (pruneUnstructured score snap k m).getD j false = true) :
    computeK (.frac q) a = .ok ((round (q * (a : ℚ))).toNat, false) ∧
    computeK (.int n) a = .ok (min n.toNat a, decide ((a : ℤ) < n)) ∧
    numActive m = numActive (pruneUnstructured score snap k m) + min k (numActive m) ∧
    entryScore score snap i ≤ entryScore score snap j ∧
    applyUnstructured Int.natAbs [5, 1, 4, 2, 6, 3]
        [true, true, true, true, true, true] (.int 3) =
      .ok [true, false, true, false, true, false] := by
  refine ⟨?_, ?_, pruneUnstructured_count score snap k m,
    pruneUnstructured_min hi hzi hj, by rfl⟩
  · have hval : ¬(q < 0 ∨ 1 < q) := by
      rintro (hc | hc)
      · exact absurd hq0 (not_le.mpr hc)
      · exact absurd hq1 (not_le.mpr hc)
    simp [computeK, hval]
  · have hnn : ¬n < 0 := not_lt.mpr hn
    by_cases hlt : (a : ℤ) < n
    · have hmin : min n.toNat a = a := by omega
      simp [computeK, hnn, hlt, hmin]
    · have hmin : min n.toNat a = n.toNat := by omega
      simp [computeK, hnn, hlt, hmin]

/-- C4 witness: the amended theorem at the tutorial scenario. -/
theorem claim_C4_witness :
    (0 : ℚ) ≤ 1 / 2 ∧ (1 : ℚ) / 2 ≤ 1 ∧ (0 : ℤ) ≤ 3 ∧
    ([true, true, true, true, true, true] : Mask).getD 1 false = true ∧
    (pruneUnstructured Int.natAbs [5, 1, 4, 2, 6, 3] 3
        [true, true, true, true, true, true]).getD 1 false = false ∧
    (pruneUnstructured Int.natAbs [5, 1, 4, 2, 6, 3] 3
        [true, true, true, true, true, true]).getD 0 false = true ∧
    (computeK (.frac (1 / 2)) 6 = .ok ((round ((1 / 2 : ℚ) * (6 : ℚ))).toNat, false) ∧
      computeK (.int 3) 6 = .ok (min (3 : ℤ).toNat 6, decide ((6 : ℤ) < 3)) ∧
      numActive [true, true, true, true, true, true] =
        numActive (pruneUnstructured Int.natAbs [5, 1, 4, 2, 6, 3] 3
          [true, true, true, true, true, true]) +
          min 3 (numActive [true, true, true, true, true, true]) ∧
      entryScore Int.natAbs [5, 1, 4, 2, 6, 3] 1 ≤
        entryScore Int.natAbs [5, 1, 4, 2, 6, 3] 0 ∧
      applyUnstructured Int.natAbs [5, 1, 4, 2, 6, 3]
          [true, true, true, true, true, true] (.int 3) =
        .ok [true, false, true, false, true, false]) :=
  ⟨by norm_num, by norm_num, by norm_num, by decide, by rfl, by rfl,
    claim_C4 Int.natAbs [5, 1, 4, 2, 6, 3] [true, true, true, true, true, true] 3
      (1 / 2) (by norm_num) (by norm_num) 3 (by norm_num) 6 1 0
      (by decide) (by rfl) (by rfl)⟩

/-- C9.  Amount validation: a fractional amount outside `[0,1]` or a
negative integer amount raises `InvalidAmount` immediately and leaves the
parameter state unchanged; an integer amount exceeding the active count
succeeds with the count clipped to the number of active entries and the
warning flag set — never a hard error and never silently ignored. -/
theorem claim_C9 (q : ℚ) (hq : q < 0 ∨ 1 < q) (n : ℤ) (hneg : n < 0)
    (score : Int → Nat) (snap : Tensor) (m : Mask) (s : PState)
    (n2 : ℤ) (hgt : (numActive m : ℤ) < n2) :
    applyUnstructured score snap m (.frac q) = .error .invalidAmount ∧
    applyUnstructured score snap m (.int n) = .error .invalidAmount ∧
    stepChecked score (.frac q) s = s ∧
    stepChecked score (.int n) s = s ∧
    computeK (.int n2) (numActive m) = .ok (numActive m, true) ∧
    applyUnstructured score snap m (.int n2) =
      .ok (pruneUnstructured score snap (numActive m) m) := by
  have hfrac : ∀ a : Nat, computeK (.frac q) a = .error .invalidAmount := by
    intro a; simp [computeK, hq]
  have hint : ∀ a : Nat, computeK (.int n) a = .error .invalidAmount := by
    intro a; simp [computeK, hneg]
  have hclip : computeK (.int n2) (numActive m) = .ok (numActive m, true) := by
    have hnn : ¬n2 < 0 := by omega
    simp [computeK, hnn, hgt]
  refine ⟨?_, ?_, ?_, ?_, hclip, ?_⟩
  · simp [applyUnstructured, hfrac]
  · simp [applyUnstructured, hint]
  · simp [stepChecked, applyUnstructured, hfrac]
  · simp [stepChecked, applyUnstructured, hint]
  · simp [applyUnstructured, hclip]

/-- C9 witness: amount 1.5, amount -1 and amount 9 on a 3-entry mask with
2 active entries. -/
theorem claim_C9_witness :
    ((3 : ℚ) / 2 < 0 ∨ 1 < (3 : ℚ) / 2) ∧ (-1 : ℤ) < 0 ∧
    (numActive [true, false, true] : ℤ) < 9 ∧
    (applyUnstructured Int.natAbs [4, 5, 6] [true, false, true] (.frac (3 / 2)) =
        .error .invalidAmount ∧
      applyUnstructured Int.natAbs [4, 5, 6] [true, false, true] (.int (-1)) =
        .error .invalidAmount ∧
      stepChecked Int.natAbs (.frac (3 / 2)) ⟨[4, 5, 6], [true, false, true], [4, 0, 6]⟩ =
        ⟨[4, 5, 6], [true, false, true], [4, 0, 6]⟩ ∧
      stepChecked Int.natAbs (.int (-1)) ⟨[4, 5, 6], [true, false, true], [4, 0, 6]⟩ =
        ⟨[4, 5, 6], [true, false, true], [4, 0, 6]⟩ ∧
      computeK (.int 9) (numActive [true, false, true]) =
        .ok (numActive [true, false, true], true) ∧
      applyUnstructured Int.natAbs [4, 5, 6] [true, false, true] (.int 9) =
        .ok (pruneUnstructured Int.natAbs [4, 5, 6] (numActive [true, false, true])
          [true, false, true])) :=
  ⟨by norm_num, by norm_num, by decide,
    claim_C9 (3 / 2) (by norm_num) (-1) (by norm_num) Int.natAbs [4, 5, 6]
      [true, false, true] ⟨[4, 5, 6], [true, false, true], [4, 0, 6]⟩ 9 (by decide)⟩

/-- C5.  Global pruning pools all active entries of all tensors, zeroes
exactly `k = round(amount * total_active)` entries in total (the sum over
tensors of newly pruned entries equals `k` exactly), and this total
depends only on the total active size, not on the partition into tensors;
concretely, tensors of sizes 4 and 6 with amount 0.2 lose exactly 2
entries overall, the 2 globally lowest-scoring ones. -/
theorem claim_C5 (score score2 : Int → Nat) (ts ts2 : List (Tensor × Mask)) (q : ℚ)
    (hq0 : 0 ≤ q) (hq1 : q ≤ 1) (ms ms2 : List Mask)
    (h1 : applyGlobal score ts (.frac q) = .ok ms)
    (h2 : applyGlobal score2 ts2 (.frac q) = .ok ms2)
    (heq : totalActive ts = totalActive ts2) :
    totalActive ts = (ms.map numActive).sum + (round (q * (totalActive ts : ℚ))).toNat ∧
    (ms.map numActive).sum + totalActive ts2 = (ms2.map numActive).sum + totalActive ts ∧
    applyGlobal Int.natAbs
        [([3, 7, 1, 9], [true, true, true, true]),
          ([4, 8, 2, 6, 10, 5], [true, true, true, true, true, true])] (.frac (1 / 5)) =
      .ok [[true, true, false, true], [true, true, false, true, true, true]] ∧
    totalActive
        [([3, 7, 1, 9], [true, true, true, true]),
          ([4, 8, 2, 6, 10, 5], [true, true, true, true, true, true])] =
      (([[true, true, false, true], [true, true, false, true, true, true]] :
        List Mask).map numActive).sum + 2 := by
  have hA := applyGlobal_count hq0 hq1 h1
  have hB := applyGlobal_count hq0 hq1 h2
  rw [← heq] at hB
  refine ⟨hA, by omega, by with_unfolding_all rfl, by decide⟩

/-- C5 witness: sizes 4 and 6 versus the same pool as a single size-10
tensor, amount 0.2. -/
theorem claim_C5_witness :
    (0 : ℚ) ≤ 1 / 5 ∧ (1 : ℚ) / 5 ≤ 1 ∧
    applyGlobal Int.natAbs
        [([3, 7, 1, 9], [true, true, true, true]),
          ([4, 8, 2, 6, 10, 5], [true, true, true, true, true, true])] (.frac (1 / 5)) =
      .ok [[true, true, false, true], [true, true, false, true, true, true]] ∧
    applyGlobal Int.natAbs
        [([3, 7, 1, 9, 4, 8, 2, 6, 10, 5],
          [true, true, true, true, true, true, true, true, true, true])] (.frac (1 / 5)) =
      .ok [[true, true, false, true, true, true, false, true, true, true]] ∧
    totalActive
        [([3, 7, 1, 9], [true, true, true, true]),
          ([4, 8, 2, 6, 10, 5], [true, true, true, true, true, true])] =
      totalActive
        [([3, 7, 1, 9, 4, 8, 2, 6, 10, 5],
          [true, true, true, true, true, true, true, true, true, true])] ∧
    (totalActive
        [([3, 7, 1, 9], [true, true, true, true]),
          ([4, 8, 2, 6, 10, 5], [true, true, true, true, true, true])] =
      (([[true, true, false, true], [true, true, false, true, true, true]] :
          List Mask).map numActive).sum +
        (round ((1 / 5 : ℚ) *
          (totalActive
            [([3, 7, 1, 9], [true, true, true, true]),
              ([4, 8, 2, 6, 10, 5], [true, true, true, true, true, true])] : ℚ))).toNat) := by
  refine ⟨by norm_num, by norm_num, by with_unfolding_all rfl, by with_unfolding_all rfl,
    by decide, ?_⟩
  exact (claim_C5 Int.natAbs Int.natAbs
    [([3, 7, 1, 9], [true, true, true, true]),
      ([4, 8, 2, 6, 10, 5], [true, true, true, true, true, true])]
    [([3, 7, 1, 9, 4, 8, 2, 6, 10, 5],
      [true, true, true, true, true, true, true, true, true, true])]
    (1 / 5) (by norm_num) (by norm_num)
    [[true, true, false, true], [true, true, false, true, true, true]]
    [[true, true, false, true, true, true, false, true, true, true]]
    (by with_unfolding_all rfl) (by with_unfolding_all rfl) (by decide)).1

/-- C6.  Structured pruning: fully-zeroed slices are excluded from
candidacy and left untouched; exactly `min k num_active_slices` slices
are newly deactivated; every slice is either untouched or zeroed in full;
every pruned slice's masked-`Lp` score is at most every surviving active
slice's score (score ties are broken by lowest slice index, as the
concrete scenario exhibits); and with amount 0.5 on 6 active slices
exactly 3 full slices are zeroed. -/
theorem claim_C6 (p : Nat) (snap : List Tensor) (m : SMask) (k : Nat) (q : ℚ)
    (hq0 : 0 ≤ q) (hq1 : q ≤ 1) (i0 i2 i j : Nat)
    (hinact : sliceActive (m.getD i0 []) = false)
    (hia : sliceActive (m.getD i []) = true)
    (hzi : sliceActive ((pruneStructured p snap k m).getD i []) = false)
    (hj : sliceActive ((pruneStructured p snap k m).getD j []) = true) :
    (pruneStructured p snap k m).getD i0 [] = m.getD i0 [] ∧
    numActiveSlices m =
      numActiveSlices (pruneStructured p snap k m) + min k (numActiveSlices m) ∧
    ((pruneStructured p snap k m).getD i2 [] = m.getD i2 [] ∨
      (pruneStructured p snap k m).getD i2 [] =
        List.replicate (m.getD i2 []).length false) ∧
    sliceScore p (snap.getD i []) (m.getD i []) ≤
      sliceScore p (snap.getD j []) (m.getD j []) ∧
    applyStructured p snap m (.frac q) =
      .ok (pruneStructured p snap ((round (q * (numActiveSlices m : ℚ))).toNat) m) ∧
    applyStructured 2 [[1, 1], [1, 1], [2, 1], [1, 2], [3, 0], [0, 3], [9, 9]]
        [[true, true], [true, true], [true, true], [true, true], [true, true],
          [true, true], [false, false]] (.frac (1 / 2)) =
      .ok [[false, false], [false, false], [false, false], [true, true], [true, true],
        [true, true], [false, false]] := by
  have hval : ¬(q < 0 ∨ 1 < q) := by
    rintro (hc | hc)
    · exact absurd hq0 (not_le.mpr hc)
    · exact absurd hq1 (not_le.mpr hc)
  refine ⟨pruneStructured_inactive p snap k m hinact,
    pruneStructured_count p snap k m,
    pruneStructured_all_or_nothing p snap k m i2,
    pruneStructured_min hia hzi hj, ?_, by with_unfolding_all rfl⟩
  simp [applyStructured, computeK, hval]

/-- C6 witness: 7 slices (6 active, one fully zeroed), squared-L2 scores
2, 2, 5, 5, 9, 9 with a tie at 5 broken towards slice index 2. -/
theorem claim_C6_witness :
    (0 : ℚ) ≤ 1 / 2 ∧ (1 : ℚ) / 2 ≤ 1 ∧
    sliceActive
        (([[true, true], [true, true], [true, true], [true, true], [true, true],
          [true, true], [false, false]] : SMask).getD 6 []) = false ∧
    sliceActive
        (([[true, true], [true, true], [true, true], [true, true], [true, true],
          [true, true], [false, false]] : SMask).getD 2 []) = true ∧
    sliceActive
        ((pruneStructured 2 [[1, 1], [1, 1], [2, 1], [1, 2], [3, 0], [0, 3], [9, 9]] 3
          [[true, true], [true, true], [true, true], [true, true], [true, true],
            [true, true], [false, false]]).getD 2 []) = false ∧
    sliceActive
        ((pruneStructured 2 [[1, 1], [1, 1], [2, 1], [1, 2], [3, 0], [0, 3], [9, 9]] 3
          [[true, true], [true, true], [true, true], [true, true], [true, true],
            [true, true], [false, false]]).getD 3 []) = true ∧
    sliceScore 2 [2, 1] [true, true] ≤ sliceScore 2 [1, 2] [true, true] := by
  refine ⟨by norm_num, by norm_num, by decide, by decide, by decide, by decide, ?_⟩
  have h := claim_C6 2 [[1, 1], [1, 1], [2, 1], [1, 2], [3, 0], [0, 3], [9, 9]]
    [[true, true], [true, true], [true, true], [true, true], [true, true],
      [true, true], [false, false]] 3 (1 / 2) (by norm_num) (by norm_num) 6 2 2 3
    (by decide) (by decide) (by decide) (by decide)
  exact h.2.2.2.1

/-- C7.  Composition contract of `compute_mask`: the tutorial's
`FooBarPruningMethod.compute_mask`, the engine's unstructured pruning and
its structured pruning never set a zero entry of the current mask back
to 1 (every entry that is 1 afterwards was 1 before); the container
applies a technique only to the unpruned portion — positions already
pruned stay pruned no matter the technique — and the containerized
FooBar rule zeroes every other entry of the still-unpruned portion, as
the concrete instance shows. -/
theorem claim_C7 (score : Int → Nat) (snap t : Tensor) (m m2 : Mask) (amt : Amount)
    (p : Nat) (ssnap : List Tensor) (sm : SMask) (k : Nat)
    (meth : Tensor → Mask → Mask) (ifb iu isl jsl ic : Nat)
    (hfb : (fooBarComputeMask t m).getD ifb false = true)
    (hu : applyUnstructured score snap m amt = .ok m2)
    (hu2 : m2.getD iu false = true)
    (hs : ((pruneStructured p ssnap k sm).getD isl []).getD jsl false = true)
    (hc : m.getD ic false = false) :
    m.getD ifb false = true ∧
    m.getD iu false = true ∧
    (sm.getD isl []).getD jsl false = true ∧
    (containerCombine meth t m).getD ic false = false ∧
    containerCombine fooBarComputeMask [9, 9, 9, 9] [false, true, true, true] =
      [false, false, true, false] := by
  refine ⟨?_, ?_, ?_, ?_, by rfl⟩
  · rw [fooBar_getD] at hfb
    exact (Bool.and_eq_true _ _).mp hfb |>.1
  · obtain ⟨k', hk'⟩ := applyUnstructured_ok hu
    exact pruneUnstructured_le (hk' ▸ hu2)
  · rcases pruneStructured_all_or_nothing p ssnap k sm isl with hsame | hzero
    · rwa [hsame] at hs
    · rw [hzero] at hs
      have : ∀ (n jj : Nat), (List.replicate n false).getD jj false = false := by
        intro n jj
        induction n generalizing jj with
        | zero => simp
        | succ n ih =>
            cases jj with
            | zero => simp [List.replicate]
            | succ jj => exact ih jj
      rw [this] at hs
      cases hs
  · exact getD_scatterActive_inactive m _ hc

/-- C7 witness: mask `[0,1,1,1]`; FooBar keeps position 1, unstructured
pruning of 1 entry keeps position 2, a structured prune keeps slice 0,
and the containerized FooBar zeroes exactly the 0th and 2nd still-active
positions. -/
theorem claim_C7_witness :
    (fooBarComputeMask [9, 9, 9, 9] [false, true, true, true]).getD 1 false = true ∧
    applyUnstructured Int.natAbs [4, 5, 6, 7] [false, true, true, true] (.int 1) =
      .ok [false, false, true, true] ∧
    ([false, false, true, true] : Mask).getD 2 false = true ∧
    ((pruneStructured 2 [[5], [1]] 1 [[true], [true]]).getD 0 []).getD 0 false = true ∧
    ([false, true, true, true] : Mask).getD 0 false = false ∧
    (([false, true, true, true] : Mask).getD 1 false = true ∧
      ([false, true, true, true] : Mask).getD 2 false = true ∧
      (([[true], [true]] : SMask).getD 0 []).getD 0 false = true ∧
      (containerCombine fooBarComputeMask [9, 9, 9, 9]
        [false, true, true, true]).getD 0 false = false ∧
      containerCombine fooBarComputeMask [9, 9, 9, 9] [false, true, true, true] =
        [false, false, true, false]) :=
  ⟨by decide, by rfl, by decide, by decide, by decide,
    claim_C7 Int.natAbs [4, 5, 6, 7] [9, 9, 9, 9] [false, true, true, true]
      [false, false, true, true] (.int 1) 2 [[5], [1]] [[true], [true]] 1
      fooBarComputeMask 1 2 0 0 0 (by decide) (by rfl) (by decide) (by decide)
      (by decide)⟩

end PruneSpec
